import Mathlib

/-!
Verification of the SMA crossover backtesting core of the
Quant-Research-Workbench repository.

The embedding models the pandas code of `src/utils/strategies.py` and the
`simple_sma_backtest` function of `app.py` over exact rationals.  A pandas
float column is modelled as `List (Option ℚ)`: `none` stands for a
non-finite entry (NaN, as produced by `pct_change`, `shift`, `diff`,
rolling windows and skip-NA reductions).  Columns that the code guarantees
to be NaN-free (`Close`, `Signal`, `Position`) are modelled as plain lists.
Float powers (`**`) and square roots occurring only in the final reported
metrics are modelled over `ℝ` via `Real.rpow` / `Real.sqrt`; `numpy`
returns NaN for a fractional power of a negative base, a corner no theorem
below relies on.  Division of a finite float by `0.0` yields `±inf`/NaN in
numpy; the model maps that case to `none` as well, a corner likewise not
relied upon (the theorems assume strictly positive prices where division
occurs).
-/

set_option autoImplicit false

namespace QRW

/-! ### Option-valued (NaN-aware) arithmetic, mirroring pandas/numpy -/

/-- Elementwise product of two possibly-NaN values (`NaN * x = NaN`,
including `0 * NaN = NaN`, as in numpy). -/
def omul : Option ℚ → Option ℚ → Option ℚ
  | some a, some b => some (a * b)
  | _, _ => none

/-- Elementwise difference of two possibly-NaN values. -/
def osub : Option ℚ → Option ℚ → Option ℚ
  | some a, some b => some (a - b)
  | _, _ => none

/-- Strict `<` on possibly-NaN values: any comparison with NaN is `false`
(IEEE semantics used by pandas boolean masks). -/
def oltB (a b : Option ℚ) : Bool :=
  match a, b with
  | some x, some y => decide (x < y)
  | _, _ => false

/-! ### Series combinators, mirroring the pandas primitives used -/

/-- Pairwise walk over a list keeping the previous element: the common
shape of `shift(1)`, `diff()` and `pct_change()` beyond their first entry. -/
def adjMap {α β : Type} (f : α → α → β) : α → List α → List β
  | _, [] => []
  | prev, y :: t => f prev y :: adjMap f y t

/-- `Series.shift(1)`: first entry NaN, entry `i` holds value `i-1`. -/
def shift1 {α : Type} : List α → List (Option α)
  | [] => []
  | x :: t => none :: adjMap (fun prev _ => some prev) x t

/-- `Series.diff()`: first entry NaN, entry `i` holds `x[i] - x[i-1]`. -/
def diff1 : List ℚ → List (Option ℚ)
  | [] => []
  | x :: t => none :: adjMap (fun prev cur => some (cur - prev)) x t

/-- `Series.pct_change()`: first entry NaN, entry `i` holds
`x[i]/x[i-1] - 1`; a zero previous price gives a non-finite entry. -/
def pctChange : List ℚ → List (Option ℚ)
  | [] => []
  | x :: t =>
      none :: adjMap (fun prev cur => if prev = 0 then none else some (cur / prev - 1)) x t

/-- `Series.cumprod()` with pandas' default `skipna=True`, generalized over
the running accumulator: NaN entries stay NaN in the output and are skipped
by the accumulation. -/
def cumprodSkipGo (acc : ℚ) : List (Option ℚ) → List (Option ℚ)
  | [] => []
  | none :: t => none :: cumprodSkipGo acc t
  | some x :: t => some (acc * x) :: cumprodSkipGo (acc * x) t

/-- `Series.cumprod()` (skip-NA), seeded at `1`. -/
def cumprodSkip (xs : List (Option ℚ)) : List (Option ℚ) :=
  cumprodSkipGo 1 xs

/-- Plain `cumprod` on a NaN-free series, generalized over the accumulator. -/
def cumprodListGo (acc : ℚ) : List ℚ → List ℚ
  | [] => []
  | x :: t => (acc * x) :: cumprodListGo (acc * x) t

/-- Plain `cumprod` on a NaN-free series, seeded at `1`. -/
def cumprodList (xs : List ℚ) : List ℚ :=
  cumprodListGo 1 xs

/-- `Series.cummax()` with `skipna=True`, generalized over the running
maximum (`none` while no defined value has been seen). -/
def cummaxGo (acc : Option ℚ) : List (Option ℚ) → List (Option ℚ)
  | [] => []
  | none :: t => none :: cummaxGo acc t
  | some x :: t =>
      match acc with
      | none => some x :: cummaxGo (some x) t
      | some a => some (max a x) :: cummaxGo (some (max a x)) t

/-- `Series.min()` with `skipna=True`: minimum of the defined entries,
NaN (here `none`) when no entry is defined. -/
def minSkip (xs : List (Option ℚ)) : Option ℚ :=
  match xs.filterMap id with
  | [] => none
  | y :: ys => some (ys.foldl min y)

/-! ### The strategy object (`SMAStrategy.__init__`) -/

/-- The `SMAStrategy` object: the constructor merely stores the two window
parameters (lines 12-14 of `strategies.py`): no validation is performed. -/
structure SMAStrategy where
  short_period : ℤ
  long_period : ℤ
  deriving DecidableEq, Repr

/-- `SMAStrategy.__init__`: stores its arguments unchecked. -/
def SMAStrategy.init (s l : ℤ) : SMAStrategy := ⟨s, l⟩

/-! ### The pipeline (`generate_signals` / `backtest`) -/

/-- `Close.rolling(window=w).mean()`: NaN for the first `w-1` entries, then
the arithmetic mean of the trailing `w` closes.  (pandas validates the
window itself; the theorems below assume `1 ≤ w`.) -/
def rollingMean (w : ℕ) (ps : List ℚ) : List (Option ℚ) :=
  (List.range ps.length).map fun i =>
    if i + 1 < w then none
    else some ((((ps.drop (i + 1 - w)).take w).sum) / (w : ℚ))

/-- Per-bar signal of `generate_signals` (lines 38-40): start from `0`,
set `1` where short > long, then set `-1` where short < long; the two masks
are disjoint so the sequential masked assignments amount to this
conditional.  Any comparison involving NaN is false. -/
def signalOf (s l : Option ℚ) : ℤ :=
  if oltB s l then -1 else if oltB l s then 1 else 0

/-- The `Signal` column of `SMAStrategy.generate_signals`. -/
def signalList (w1 w2 : ℕ) (ps : List ℚ) : List ℤ :=
  List.zipWith signalOf (rollingMean w1 ps) (rollingMean w2 ps)

/-- The `Position` column (lines 43-44): `Signal.shift(1).fillna(0)`. -/
def positionList (sig : List ℤ) : List ℚ :=
  (shift1 sig).map fun o => ((o.getD 0 : ℤ) : ℚ)

/-- The full backtest frame produced by `SMAStrategy.backtest`; one field
per pandas column the code creates. -/
structure BacktestDf where
  Close : List ℚ
  SMA_short : List (Option ℚ)
  SMA_long : List (Option ℚ)
  Signal : List ℤ
  Position : List ℚ
  Returns : List (Option ℚ)
  Strategy_Returns : List (Option ℚ)
  Transaction_Costs : List (Option ℚ)
  Cumulative_Returns : List (Option ℚ)
  Cumulative_Strategy : List (Option ℚ)
  deriving DecidableEq, Repr

/-- The frame produced by `SMAStrategy.generate_signals` (lines 16-46):
the price column, the two moving averages, the `Signal` column and the
lagged `Position` column. -/
structure SignalsDf where
  Close : List ℚ
  SMA_short : List (Option ℚ)
  SMA_long : List (Option ℚ)
  Signal : List ℤ
  Position : List ℚ
  deriving DecidableEq, Repr

/-- `SMAStrategy.generate_signals` for a frame holding the close prices
(the SMA columns are computed because they are not present). -/
def generate_signals (w1 w2 : ℕ) (ps : List ℚ) : SignalsDf :=
  { Close := ps
    SMA_short := rollingMean w1 ps
    SMA_long := rollingMean w2 ps
    Signal := signalList w1 w2 ps
    Position := positionList (signalList w1 w2 ps) }

/-- The `Transaction_Costs` column (lines 68-69):
`Position.diff().abs() * transaction_cost`. -/
def transactionCosts (pos : List ℚ) (c : ℚ) : List (Option ℚ) :=
  ((diff1 pos).map (Option.map fun z => |z|)).map (Option.map fun z => z * c)

/-- The final `Strategy_Returns` column (lines 65-70):
`Position * Returns - Transaction_Costs`. -/
def strategyReturns (pos : List ℚ) (ret : List (Option ℚ)) (c : ℚ) : List (Option ℚ) :=
  List.zipWith osub (List.zipWith (fun p r => omul (some p) r) pos ret)
    (transactionCosts pos c)

/-- `SMAStrategy.backtest` (lines 59-74): signals, lagged positions,
per-bar returns, transaction costs on position changes, and the two
cumulative product series. -/
def backtest (w1 w2 : ℕ) (ps : List ℚ) (c : ℚ) : BacktestDf :=
  let sig := signalList w1 w2 ps
  let pos := positionList sig
  let ret := pctChange ps
  let sr := strategyReturns pos ret c
  { Close := ps
    SMA_short := rollingMean w1 ps
    SMA_long := rollingMean w2 ps
    Signal := sig
    Position := pos
    Returns := ret
    Strategy_Returns := sr
    Transaction_Costs := transactionCosts pos c
    Cumulative_Returns := cumprodSkip (ret.map (Option.map fun r => 1 + r))
    Cumulative_Strategy := cumprodSkip (sr.map (Option.map fun r => 1 + r)) }

/-! ### Max drawdown (line 87 and lines 120-121) -/

/-- One entry of `cs / cs.cummax() - 1`: defined only when both the value
and the running maximum are defined and the latter is nonzero. -/
def ddOf (cv m : Option ℚ) : Option ℚ :=
  match cv, m with
  | some cv, some m => if m = 0 then none else some (cv / m - 1)
  | _, _ => none

/-- `(cs / cs.cummax() - 1).min()`: the max-drawdown statistic shared by
`calculate_metrics` (line 87) and `calculate_additional_metrics`
(lines 120-121). -/
def maxDrawdown (cs : List (Option ℚ)) : Option ℚ :=
  minSkip (List.zipWith ddOf cs (cummaxGo none cs))

/-- Fused form of `cs / cs.cummax() - 1` used only in proofs: the running
maximum is threaded through the recursion instead of being zipped in. -/
def drawdownsGo (acc : Option ℚ) : List (Option ℚ) → List (Option ℚ)
  | [] => []
  | none :: t => none :: drawdownsGo acc t
  | some x :: t =>
      match acc with
      | none => (if x = 0 then none else some (x / x - 1)) :: drawdownsGo (some x) t
      | some a =>
          (if max a x = 0 then none else some (x / max a x - 1)) ::
            drawdownsGo (some (max a x)) t

/-! ### Performance metrics (`calculate_metrics`, lines 81-95) -/

/-- Sample variance (`ddof=1`, skip-NA) of a possibly-NaN series: the
square of `Series.std()`.  NaN when fewer than two defined entries exist,
as in pandas. -/
def ovar (xs : List (Option ℚ)) : Option ℚ :=
  let d := xs.filterMap id
  if d.length < 2 then none
  else some ((d.map fun x => (x - d.sum / (d.length : ℚ)) ^ 2).sum / ((d.length : ℚ) - 1))

/-- The metrics record returned by `SMAStrategy.calculate_metrics` (the
code formats these five numbers as strings; NaN entries format as "nan").
The field `sharpe` holds the dictionary entry named Sharpe Ratio. -/
structure Metrics where
  total_return : Option ℚ
  annual_return : Option ℝ
  volatility : Option ℝ
  sharpe : Option ℝ
  max_drawdown : Option ℚ

section
open scoped Classical

/-- `SMAStrategy.calculate_metrics` (lines 81-95).  `none` as the overall
result models the `IndexError` that `iloc[-1]` raises on an empty frame
(line 83; `252 / len(df)` would likewise divide by zero).  `Real.rpow`
models the float `**`; `volatility > 0` on a NaN volatility is false, as
for IEEE floats. -/
noncomputable def calculate_metrics (df : BacktestDf) : Option Metrics :=
  match df.Cumulative_Strategy.getLast? with
  | none => none
  | some vT =>
      let n : ℕ := df.Cumulative_Strategy.length
      let annual : Option ℝ := vT.map fun v => (v : ℝ) ^ ((252 : ℝ) / (n : ℝ)) - 1
      let vol : Option ℝ := (ovar df.Strategy_Returns).map fun v =>
        Real.sqrt (v : ℝ) * Real.sqrt 252
      let sharpe : Option ℝ :=
        match vol with
        | some x =>
            if 0 < x then
              match annual with
              | some a => some (a / x)
              | none => none
            else some 0
        | none => some 0
      some
        { total_return := vT.map fun v => v - 1
          annual_return := annual
          volatility := vol
          sharpe := sharpe
          max_drawdown := maxDrawdown df.Cumulative_Strategy }

end

/-! ### `calculate_additional_metrics` (lines 98-130) -/

/-- The internal `max_dd` of `calculate_additional_metrics` (lines
120-121): max drawdown of the cumulative product of the NaN-dropped
returns. -/
def addMaxDrawdown (rs : List (Option ℚ)) : Option ℚ :=
  maxDrawdown ((cumprodList ((rs.filterMap id).map fun r => 1 + r)).map some)

/-- The internal `annual_return` of `calculate_additional_metrics` (line
122): terminal cumulative value of the NaN-dropped returns raised to
`252 / len(returns)`, minus one.  Note the length used is the length
AFTER `dropna()`. -/
noncomputable def addAnnualReturn (rs : List (Option ℚ)) : Option ℝ :=
  ((cumprodList ((rs.filterMap id).map fun r => 1 + r)).getLast?).map fun v =>
    (v : ℝ) ^ ((252 : ℝ) / (((rs.filterMap id).length : ℕ) : ℝ)) - 1

/-- The dictionary returned by `calculate_additional_metrics`.  The field
`calmar` holds the entry named by the Calmar key of the source dict. -/
structure AddMetrics where
  win_rate : ℚ
  best_day : ℚ
  worst_day : ℚ
  calmar : Option ℝ

/-- `calculate_additional_metrics` (lines 98-130).  `none` as the overall
result models the empty dictionary returned when every input entry is NaN
(lines 111-112); the function never raises.  The guard on the Calmar value
is the code's `max_dd != 0`, which a NaN `max_dd` passes (yielding NaN). -/
noncomputable def calculate_additional_metrics (rs : List (Option ℚ)) : Option AddMetrics :=
  match rs.filterMap id with
  | [] => none
  | r :: rest =>
      let returns := r :: rest
      let calmar : Option ℝ :=
        if addMaxDrawdown rs = some 0 then some 0
        else
          match addAnnualReturn rs, addMaxDrawdown rs with
          | some a, some d => some (a / |(d : ℝ)|)
          | _, _ => none
      some
        { win_rate := ((returns.countP fun x => decide (0 < x)) : ℚ) / (returns.length : ℚ)
          best_day := rest.foldl max r
          worst_day := rest.foldl min r
          calmar := calmar }

/-! ### `simple_sma_backtest` of `app.py` (lines 214-226, signal part) -/

/-- The `Signal` column of `app.py`'s `simple_sma_backtest`: `1` where the
short SMA strictly exceeds the long SMA, else `0` — it never emits `-1`. -/
def simpleSignalList (w1 w2 : ℕ) (ps : List ℚ) : List ℤ :=
  List.zipWith (fun s l => if oltB l s then 1 else 0) (rollingMean w1 ps) (rollingMean w2 ps)

/-- The `Position` column of `simple_sma_backtest`: `Signal.diff()`, the
first difference of the 0/1 signal (NaN at bar 0), not a lagged signal. -/
def simplePositionList (sig : List ℤ) : List (Option ℤ) :=
  match sig with
  | [] => []
  | x :: t => none :: adjMap (fun prev cur => some (cur - prev)) x t

/-- Spec-side restatement of the crossover rule of §4.2 of the spec, for
comparison with the code's `signalOf`: `+1` if short > long, `-1` if
short < long, `0` otherwise (in particular when either input is
undefined). -/
def signalSpec (os ol : Option ℚ) : ℤ :=
  match os, ol with
  | some a, some b => if b < a then 1 else if a < b then -1 else 0
  | _, _ => 0

/-! ### Helper lemmas: lengths and indexed access -/

theorem zipWith_get? {α β γ : Type} (f : α → β → γ) :
    ∀ (as : List α) (bs : List β) (i : ℕ),
      (List.zipWith f as bs).get? i =
        match as.get? i, bs.get? i with
        | some a, some b => some (f a b)
        | _, _ => none
  | [], _, _ => by simp
  | _ :: _, [], _ => by simp
  | a :: as, b :: bs, 0 => rfl
  | a :: as, b :: bs, i + 1 => by
      simpa using zipWith_get? f as bs i

theorem adjMap_length {α β : Type} (f : α → α → β) :
    ∀ (prev : α) (t : List α), (adjMap f prev t).length = t.length
  | _, [] => rfl
  | _, _ :: t => by simp [adjMap, adjMap_length f _ t]

theorem adjMap_get? {α β : Type} (f : α → α → β) :
    ∀ (t : List α) (prev : α) (i : ℕ) (a b : α),
      (prev :: t).get? i = some a → t.get? i = some b →
      (adjMap f prev t).get? i = some (f a b)
  | [], _, i, _, _, _, hb => by simp at hb
  | y :: t, prev, 0, a, b, ha, hb => by
      simp only [List.get?] at ha hb
      simp [adjMap, ← Option.some_inj.mp ha, ← Option.some_inj.mp hb]
  | y :: t, prev, i + 1, a, b, ha, hb => by
      simp only [List.get?] at ha hb
      simpa [adjMap] using adjMap_get? f t y i a b ha hb

theorem shift1_length {α : Type} : ∀ xs : List α, (shift1 xs).length = xs.length
  | [] => rfl
  | _ :: t => by simp [shift1, adjMap_length]

theorem shift1_get?_zero {α : Type} (x : α) (t : List α) :
    (shift1 (x :: t)).get? 0 = some none := rfl

theorem shift1_get?_succ {α : Type} :
    ∀ (xs : List α) (i : ℕ) (v : α), xs.get? i = some v → i + 1 < xs.length →
      (shift1 xs).get? (i + 1) = some (some v)
  | [], i, v, hv, _ => by simp at hv
  | x :: t, i, v, hv, hlen => by
      have hb : t.get? i = some ((x :: t).get (⟨i + 1, hlen⟩)) := by
        have hi : i < t.length := Nat.lt_of_succ_lt_succ hlen
        rw [List.get?_eq_get hi]
        rfl
      simp only [shift1, List.get?]
      exact adjMap_get? _ t x i v _ hv hb

theorem positionList_length (sig : List ℤ) : (positionList sig).length = sig.length := by
  simp [positionList, shift1_length]

theorem rollingMean_length (w : ℕ) (ps : List ℚ) :
    (rollingMean w ps).length = ps.length := by
  simp [rollingMean]

theorem rollingMean_get? (w : ℕ) (ps : List ℚ) (i : ℕ) (h : i < ps.length) :
    (rollingMean w ps).get? i =
      some (if i + 1 < w then none
            else some ((((ps.drop (i + 1 - w)).take w).sum) / (w : ℚ))) := by
  simp [rollingMean, List.get?_eq_getElem?, List.getElem?_map, List.getElem?_range h]

theorem signalList_length (w1 w2 : ℕ) (ps : List ℚ) :
    (signalList w1 w2 ps).length = ps.length := by
  simp [signalList, rollingMean_length]

theorem pctChange_length : ∀ ps : List ℚ, (pctChange ps).length = ps.length
  | [] => rfl
  | _ :: t => by simp [pctChange, adjMap_length]

theorem diff1_length : ∀ xs : List ℚ, (diff1 xs).length = xs.length
  | [] => rfl
  | _ :: t => by simp [diff1, adjMap_length]

theorem cumprodSkipGo_length : ∀ (acc : ℚ) (xs : List (Option ℚ)),
    (cumprodSkipGo acc xs).length = xs.length
  | _, [] => rfl
  | acc, none :: t => by simp [cumprodSkipGo, cumprodSkipGo_length acc t]
  | acc, some x :: t => by simp [cumprodSkipGo, cumprodSkipGo_length (acc * x) t]

/-- Skip-NA cumulative products keep the NaN pattern of their input: an
output entry is defined exactly where the input entry is. -/
theorem cumprodSkipGo_isSome : ∀ (acc : ℚ) (xs : List (Option ℚ)) (i : ℕ),
    ((cumprodSkipGo acc xs).get? i).map Option.isSome = (xs.get? i).map Option.isSome
  | _, [], _ => rfl
  | _, none :: _, 0 => rfl
  | _, some _ :: _, 0 => rfl
  | acc, none :: t, i + 1 => by
      simpa [cumprodSkipGo] using cumprodSkipGo_isSome acc t i
  | acc, some x :: t, i + 1 => by
      simpa [cumprodSkipGo] using cumprodSkipGo_isSome (acc * x) t i

/-- The defined entries of a skip-NA cumulative product are exactly the
plain cumulative product of the defined entries (seed preserved). -/
theorem cumprodSkipGo_filterMap : ∀ (acc : ℚ) (xs : List (Option ℚ)),
    (cumprodSkipGo acc xs).filterMap id = cumprodListGo acc (xs.filterMap id)
  | _, [] => rfl
  | acc, none :: t => by
      simpa [cumprodSkipGo] using cumprodSkipGo_filterMap acc t
  | acc, some x :: t => by
      simpa [cumprodSkipGo, cumprodListGo] using cumprodSkipGo_filterMap (acc * x) t

theorem cumprodSkip_get?_zero_none (xs : List (Option ℚ)) (hx : xs.get? 0 = some none) :
    (cumprodSkip xs).get? 0 = some none := by
  cases xs with
  | nil => simp at hx
  | cons h t =>
      have : h = none := by simpa using hx
      subst this
      rfl

theorem pctChange_get?_zero (p : ℚ) (t : List ℚ) :
    (pctChange (p :: t)).get? 0 = some none := rfl

theorem pctChange_get?_succ :
    ∀ (ps : List ℚ) (i : ℕ) (a b : ℚ), ps.get? i = some a → ps.get? (i + 1) = some b →
      a ≠ 0 → (pctChange ps).get? (i + 1) = some (some (b / a - 1))
  | [], i, _, _, ha, _, _ => by simp at ha
  | x :: t, i, a, b, ha, hb, hne => by
      simp only [List.get?] at hb
      have := adjMap_get?
        (fun prev cur => if prev = 0 then none else some (cur / prev - 1)) t x i a b ha hb
      simpa [pctChange, List.get?, hne] using this

theorem diff1_get?_succ :
    ∀ (xs : List ℚ) (i : ℕ) (a b : ℚ), xs.get? i = some a → xs.get? (i + 1) = some b →
      (diff1 xs).get? (i + 1) = some (some (b - a))
  | [], i, _, _, ha, _ => by simp at ha
  | x :: t, i, a, b, ha, hb => by
      simp only [List.get?] at hb
      have := adjMap_get? (fun prev cur => some (cur - prev)) t x i a b ha hb
      simpa [diff1, List.get?] using this

theorem positionList_get?_zero (s : ℤ) (t : List ℤ) :
    (positionList (s :: t)).get? 0 = some 0 := rfl

theorem positionList_get?_succ (sig : List ℤ) (i : ℕ) (s : ℤ)
    (hs : sig.get? i = some s) (hlen : i + 1 < sig.length) :
    (positionList sig).get? (i + 1) = some ((s : ℚ)) := by
  have h := shift1_get?_succ sig i s hs hlen
  simp [positionList, List.get?_eq_getElem?, List.getElem?_map]
  simp [List.get?_eq_getElem?] at h
  simp [h]

/-- Index-wise description of the final `Strategy_Returns` column: at bar
`i+1`, given the positions at bars `i` and `i+1` and a defined market
return, the strategy return is `Position*Return` minus the transaction
cost `|ΔPosition| * c`. -/
theorem strategyReturns_get?_succ (pos : List ℚ) (ret : List (Option ℚ)) (c : ℚ)
    (i : ℕ) (p q r : ℚ) (hp : pos.get? i = some p) (hq : pos.get? (i + 1) = some q)
    (hr : ret.get? (i + 1) = some (some r)) :
    (strategyReturns pos ret c).get? (i + 1) = some (some (q * r - |q - p| * c)) := by
  have hd := diff1_get?_succ pos i p q hp hq
  simp only [strategyReturns, transactionCosts]
  rw [zipWith_get?, zipWith_get?, hq, hr]
  simp only [List.get?_eq_getElem?, List.getElem?_map]
  simp only [List.get?_eq_getElem?] at hd
  simp [hd, omul, osub]

theorem strategyReturns_get?_zero (p0 : ℚ) (pos : List ℚ) (ret : List (Option ℚ)) (c : ℚ)
    (hp : pos.get? 0 = some p0) (hr : ret.get? 0 = some none) :
    (strategyReturns pos ret c).get? 0 = some none := by
  simp only [strategyReturns, transactionCosts]
  rw [zipWith_get?, zipWith_get?, hp, hr]
  cases pos with
  | nil => simp at hp
  | cons x t => simp [diff1, omul, osub]

/-- At bar 0 the signal is always 0: with windows of at least one bar, the
two moving averages at bar 0 are either undefined or both equal the first
close, and neither case passes a strict comparison. -/
theorem signalList_get?_zero (w1 w2 : ℕ) (h1 : 1 ≤ w1) (h2 : 1 ≤ w2) (p : ℚ) (t : List ℚ) :
    (signalList w1 w2 (p :: t)).get? 0 = some 0 := by
  have e1 := rollingMean_get? w1 (p :: t) 0 (by simp)
  have e2 := rollingMean_get? w2 (p :: t) 0 (by simp)
  rw [signalList, zipWith_get?, e1, e2]
  by_cases hw1 : 0 + 1 < w1 <;> by_cases hw2 : 0 + 1 < w2
  · simp [hw1, hw2, signalOf, oltB]
  · simp [hw1, hw2, signalOf, oltB]
  · simp [hw1, hw2, signalOf, oltB]
  · have hw1e : w1 = 1 := by omega
    have hw2e : w2 = 1 := by omega
    subst hw1e
    subst hw2e
    simp [signalOf, oltB, lt_irrefl]

theorem backtest_Position (w1 w2 : ℕ) (ps : List ℚ) (c : ℚ) :
    (backtest w1 w2 ps c).Position = positionList (signalList w1 w2 ps) := rfl

theorem backtest_Returns (w1 w2 : ℕ) (ps : List ℚ) (c : ℚ) :
    (backtest w1 w2 ps c).Returns = pctChange ps := rfl

theorem backtest_SR (w1 w2 : ℕ) (ps : List ℚ) (c : ℚ) :
    (backtest w1 w2 ps c).Strategy_Returns =
      strategyReturns (positionList (signalList w1 w2 ps)) (pctChange ps) c := rfl

theorem backtest_CR (w1 w2 : ℕ) (ps : List ℚ) (c : ℚ) :
    (backtest w1 w2 ps c).Cumulative_Returns =
      cumprodSkip ((pctChange ps).map (Option.map fun r => 1 + r)) := rfl

theorem backtest_CS (w1 w2 : ℕ) (ps : List ℚ) (c : ℚ) :
    (backtest w1 w2 ps c).Cumulative_Strategy =
      cumprodSkip (((strategyReturns (positionList (signalList w1 w2 ps))
        (pctChange ps) c)).map (Option.map fun r => 1 + r)) := rfl

theorem backtest_Position_length (w1 w2 : ℕ) (ps : List ℚ) (c : ℚ) :
    (backtest w1 w2 ps c).Position.length = ps.length := by
  rw [backtest_Position, positionList_length, signalList_length]

/-- Full description of a strategy-return entry at bar `i+1` for strictly
positive prices: the positions at bars `i` and `i+1` and the market return
exist and combine into `Position*Return - |ΔPosition|*c`. -/
theorem backtest_SR_succ (w1 w2 : ℕ) (ps : List ℚ) (c : ℚ) (i : ℕ)
    (hp : ∀ p ∈ ps, 0 < p) (hi : i + 1 < ps.length) :
    ∃ q p r : ℚ,
      (backtest w1 w2 ps c).Position.get? (i + 1) = some q ∧
      (backtest w1 w2 ps c).Position.get? i = some p ∧
      (backtest w1 w2 ps c).Returns.get? (i + 1) = some (some r) ∧
      (backtest w1 w2 ps c).Strategy_Returns.get? (i + 1) =
        some (some (q * r - |q - p| * c)) := by
  have hlen : (positionList (signalList w1 w2 ps)).length = ps.length := by
    rw [positionList_length, signalList_length]
  have hi' : i < ps.length := Nat.lt_of_succ_lt hi
  have hq : (positionList (signalList w1 w2 ps)).get? (i + 1) =
      some ((positionList (signalList w1 w2 ps)).get ⟨i + 1, by rw [hlen]; exact hi⟩) :=
    List.get?_eq_get _
  have hpm : (positionList (signalList w1 w2 ps)).get? i =
      some ((positionList (signalList w1 w2 ps)).get ⟨i, by rw [hlen]; exact hi'⟩) :=
    List.get?_eq_get _
  have hpa : ps.get? i = some (ps.get ⟨i, hi'⟩) := List.get?_eq_get _
  have hpb : ps.get? (i + 1) = some (ps.get ⟨i + 1, hi⟩) := List.get?_eq_get _
  have hane : ps.get ⟨i, hi'⟩ ≠ 0 := ne_of_gt (hp _ (List.get_mem ps _ _))
  have hr := pctChange_get?_succ ps i _ _ hpa hpb hane
  have hq' : (backtest w1 w2 ps c).Position.get? (i + 1) =
      some ((positionList (signalList w1 w2 ps)).get ⟨i + 1, by rw [hlen]; exact hi⟩) := by
    rw [backtest_Position]; exact hq
  have hpm' : (backtest w1 w2 ps c).Position.get? i =
      some ((positionList (signalList w1 w2 ps)).get ⟨i, by rw [hlen]; exact hi'⟩) := by
    rw [backtest_Position]; exact hpm
  have hr' : (backtest w1 w2 ps c).Returns.get? (i + 1) =
      some (some (ps.get ⟨i + 1, hi⟩ / ps.get ⟨i, hi'⟩ - 1)) := by
    rw [backtest_Returns]; exact hr
  have hsr' : (backtest w1 w2 ps c).Strategy_Returns.get? (i + 1) =
      some (some ((positionList (signalList w1 w2 ps)).get ⟨i + 1, by rw [hlen]; exact hi⟩ *
        (ps.get ⟨i + 1, hi⟩ / ps.get ⟨i, hi'⟩ - 1) -
        |(positionList (signalList w1 w2 ps)).get ⟨i + 1, by rw [hlen]; exact hi⟩ -
          (positionList (signalList w1 w2 ps)).get ⟨i, by rw [hlen]; exact hi'⟩| * c)) := by
    rw [backtest_SR]
    exact strategyReturns_get?_succ _ _ c i _ _ _ hpm hq hr
  exact ⟨_, _, _, hq', hpm', hr', hsr'⟩

/-- The lagged position column of a nonempty series starts at 0 (the
`fillna(0)` after the shift). -/
theorem position_get?_zero (w1 w2 : ℕ) (ps : List ℚ) (hne : ps ≠ []) :
    (positionList (signalList w1 w2 ps)).get? 0 = some 0 := by
  cases hsig : signalList w1 w2 ps with
  | nil =>
      exfalso
      apply hne
      have := signalList_length w1 w2 ps
      rw [hsig] at this
      exact List.length_eq_zero.mp this.symm
  | cons s0 rest => exact positionList_get?_zero s0 rest

/-! ### C1: the one-bar execution lag of `Position` -/

/-- C1: for every input series, the `Position` column of
`SMAStrategy.generate_signals` is 0 at bar 0 and equals the previous bar's
`Signal` at every later bar — the one-bar execution lag is never
dropped. -/
theorem C1_position_lag (w1 w2 : ℕ) (ps : List ℚ) (hne : ps ≠ []) :
    (generate_signals w1 w2 ps).Position.get? 0 = some 0 ∧
    ∀ (i : ℕ) (s : ℤ), (generate_signals w1 w2 ps).Signal.get? i = some s →
      i + 1 < ps.length →
      (generate_signals w1 w2 ps).Position.get? (i + 1) = some ((s : ℚ)) := by
  constructor
  · simp only [generate_signals]
    exact position_get?_zero w1 w2 ps hne
  · intro i s hs hi
    have hlen : (signalList w1 w2 ps).length = ps.length := signalList_length w1 w2 ps
    simp only [generate_signals] at hs ⊢
    exact positionList_get?_succ _ i s hs (by rw [hlen]; exact hi)

/-- Witness for C1 at the concrete series `[1, 2, 4]` with windows 1/2. -/
theorem C1_position_lag_witness :
    (generate_signals 1 2 [1, 2, 4]).Position.get? 0 = some 0 ∧
    (generate_signals 1 2 [1, 2, 4]).Position.get? 1 = some (((0 : ℤ) : ℚ)) :=
  ⟨(C1_position_lag 1 2 [1, 2, 4] (by decide)).1,
   (C1_position_lag 1 2 [1, 2, 4] (by decide)).2 0 0 (by decide) (by decide)⟩

/-! ### C2: the crossover rule for `Signal` -/

/-- C2: at every bar, the signal of `SMAStrategy.generate_signals` is `1`
when the short SMA strictly exceeds the long SMA, `-1` when it is strictly
below, and `0` otherwise — in particular `0` whenever either moving
average is undefined — so every signal lies in `{-1, 0, 1}`. -/
theorem C2_signal_rule (w1 w2 : ℕ) (ps : List ℚ) (i : ℕ) (s : ℤ) (os ol : Option ℚ)
    (hs : (generate_signals w1 w2 ps).Signal.get? i = some s)
    (h1 : (generate_signals w1 w2 ps).SMA_short.get? i = some os)
    (h2 : (generate_signals w1 w2 ps).SMA_long.get? i = some ol) :
    (s = -1 ∨ s = 0 ∨ s = 1) ∧ s = signalSpec os ol := by
  simp only [generate_signals] at hs h1 h2
  rw [signalList, zipWith_get?, h1, h2] at hs
  have hval : s = signalOf os ol := (Option.some.inj hs).symm
  have hchr : signalOf os ol = signalSpec os ol := by
    cases os with
    | none => cases ol <;> simp [signalOf, signalSpec, oltB]
    | some a =>
        cases ol with
        | none => simp [signalOf, signalSpec, oltB]
        | some b =>
            rcases lt_trichotomy a b with h | h | h
            · simp [signalOf, signalSpec, oltB, h, lt_asymm h]
            · simp [signalOf, signalSpec, oltB, h, lt_irrefl]
            · simp [signalOf, signalSpec, oltB, h, lt_asymm h]
  refine ⟨?_, hval.trans hchr⟩
  rw [hval, hchr]
  cases os with
  | none => cases ol <;> simp [signalSpec]
  | some a =>
      cases ol with
      | none => simp [signalSpec]
      | some b =>
          by_cases hba : b < a
          · simp [signalSpec, hba]
          · by_cases hab : a < b <;> simp [signalSpec, hba, hab]

/-- Witness for C2 at bar 1 of `[1, 2, 4]` with windows 1/2: the short SMA
is 2, the long SMA is 3/2, and the signal is 1. -/
theorem C2_signal_rule_witness :
    ((1 : ℤ) = -1 ∨ (1 : ℤ) = 0 ∨ (1 : ℤ) = 1) ∧
    (1 : ℤ) = signalSpec (some 2) (some ((3 : ℚ) / 2)) :=
  C2_signal_rule 1 2 [1, 2, 4] 1 1 (some 2) (some (3 / 2))
    (by norm_num [generate_signals, signalList, rollingMean, signalOf, oltB, List.range_succ])
    (by norm_num [generate_signals, rollingMean, List.range_succ])
    (by norm_num [generate_signals, rollingMean, List.range_succ])

/-! ### C3: the per-bar strategy-return formula -/

/-- C3: for strictly positive prices, every cost rate and every bar
`i ≥ 1`, the strategy return of `SMAStrategy.backtest` equals
`Position[i] * MarketReturn[i] - c * |Position[i] - Position[i-1]|`, and
the cost term vanishes on every bar where the position does not change. -/
theorem C3_return_formula (w1 w2 : ℕ) (ps : List ℚ) (c : ℚ) (i : ℕ)
    (hp : ∀ p ∈ ps, 0 < p) (hi : i + 1 < ps.length) :
    ∃ q p r : ℚ,
      (backtest w1 w2 ps c).Position.get? (i + 1) = some q ∧
      (backtest w1 w2 ps c).Position.get? i = some p ∧
      (backtest w1 w2 ps c).Returns.get? (i + 1) = some (some r) ∧
      (backtest w1 w2 ps c).Strategy_Returns.get? (i + 1) =
        some (some (q * r - c * |q - p|)) ∧
      (q = p → (backtest w1 w2 ps c).Strategy_Returns.get? (i + 1) = some (some (q * r))) := by
  obtain ⟨q, p, r, hq, hpm, hr, hsr⟩ := backtest_SR_succ w1 w2 ps c i hp hi
  refine ⟨q, p, r, hq, hpm, hr, ?_, ?_⟩
  · rw [hsr, mul_comm (|q - p|) c]
  · intro he
    rw [hsr, he]
    simp

/-- Witness for C3 at bar 2 of `[1, 2, 4]` with windows 1/2 and cost
1/1000. -/
theorem C3_return_formula_witness :
    ∃ q p r : ℚ,
      (backtest 1 2 [1, 2, 4] (1 / 1000)).Position.get? 2 = some q ∧
      (backtest 1 2 [1, 2, 4] (1 / 1000)).Position.get? 1 = some p ∧
      (backtest 1 2 [1, 2, 4] (1 / 1000)).Returns.get? 2 = some (some r) ∧
      (backtest 1 2 [1, 2, 4] (1 / 1000)).Strategy_Returns.get? 2 =
        some (some (q * r - (1 / 1000) * |q - p|)) ∧
      (q = p → (backtest 1 2 [1, 2, 4] (1 / 1000)).Strategy_Returns.get? 2 =
        some (some (q * r))) :=
  C3_return_formula 1 2 [1, 2, 4] (1 / 1000) 1 (by norm_num) (by norm_num)

/-! ### C5: no input validation (claim fails; the code checks nothing) -/

/-- C5 counterexample: the constructor silently stores a window of 0 and
`backtest` with a negative transaction-cost rate silently produces
ordinary numeric output (the cost term even acts as a rebate: the return
at the position change of bar 2 is 1 + 1/1000), where the claim demands a
descriptive precondition failure. -/
theorem C5_counterexample :
    SMAStrategy.init 0 50 = ⟨0, 50⟩ ∧
    (backtest 1 2 [1, 2, 4] (-(1 / 1000))).Strategy_Returns.get? 2 =
      some (some ((1001 : ℚ) / 1000)) := by
  constructor
  · rfl
  · norm_num [backtest, strategyReturns, transactionCosts, positionList,
      signalList, rollingMean, signalOf, oltB, pctChange, diff1,
      adjMap, shift1, omul, osub, List.range_succ]

/-- C5 amended: neither `SMAStrategy.__init__` nor `backtest` validates
its arguments — the constructor stores any window values unchanged
(including values ≤ 0) and `backtest` accepts any transaction-cost rate,
including negative ones, producing defined numeric strategy returns at
every bar `i ≥ 1` for positive prices. -/
theorem C5_no_validation (s l : ℤ) (c : ℚ) (_hc : c < 0) (w1 w2 : ℕ) (ps : List ℚ)
    (hp : ∀ p ∈ ps, 0 < p) (i : ℕ) (hi : i + 1 < ps.length) :
    SMAStrategy.init s l = ⟨s, l⟩ ∧
    ∃ v : ℚ, (backtest w1 w2 ps c).Strategy_Returns.get? (i + 1) = some (some v) := by
  refine ⟨rfl, ?_⟩
  obtain ⟨q, p, r, _, _, _, hsr⟩ := backtest_SR_succ w1 w2 ps c i hp hi
  exact ⟨_, hsr⟩

/-- Witness for C5's amended statement with windows 0-stored and a
negative rate at bar 1 of `[1, 2]`. -/
theorem C5_no_validation_witness :
    SMAStrategy.init 0 50 = ⟨0, 50⟩ ∧
    ∃ v : ℚ, (backtest 1 2 [1, 2] (-(1 / 1000))).Strategy_Returns.get? 1 =
      some (some v) :=
  C5_no_validation 0 50 (-(1 / 1000)) (by norm_num) 1 2 [1, 2] (by norm_num) 0 (by norm_num)

/-! ### C9: the two signal-polarity variants disagree -/

/-- C9: on the decreasing series `[4, 3, 2, 1]` with windows 2/3, the
strategy of `strategies.py` emits an explicit short signal `-1` where the
short SMA is below the long SMA, while `simple_sma_backtest` of `app.py`
emits only values in `{0, 1}` and derives its position as the first
difference of that signal; the two position columns differ at bar 3. -/
theorem C9_polarity_divergence :
    (generate_signals 2 3 [4, 3, 2, 1]).Signal = [0, 0, -1, -1] ∧
    (-1 : ℤ) ∈ (generate_signals 2 3 [4, 3, 2, 1]).Signal ∧
    simpleSignalList 2 3 [4, 3, 2, 1] = [0, 0, 0, 0] ∧
    (∀ s ∈ simpleSignalList 2 3 [4, 3, 2, 1], s = 0 ∨ s = 1) ∧
    (generate_signals 2 3 [4, 3, 2, 1]).Position.get? 3 = some (-1) ∧
    (simplePositionList (simpleSignalList 2 3 [4, 3, 2, 1])).get? 3 = some (some 0) := by
  have hs : (generate_signals 2 3 [4, 3, 2, 1]).Signal = [0, 0, -1, -1] := by
    norm_num [generate_signals, signalList, rollingMean, signalOf, oltB, List.range_succ]
  have hs' : simpleSignalList 2 3 [4, 3, 2, 1] = [0, 0, 0, 0] := by
    norm_num [simpleSignalList, rollingMean, oltB, List.range_succ]
  refine ⟨hs, ?_, hs', ?_, ?_, ?_⟩
  · rw [hs]; simp
  · rw [hs']; intro s hmem; simp at hmem; simp [hmem]
  · norm_num [generate_signals, positionList, signalList, rollingMean, signalOf,
      oltB, shift1, adjMap, List.range_succ]
  · rw [hs']; rfl

/-! ### C4: the cumulative series do NOT start at 1 (claim fails) -/

/-- C4 counterexample: on `[1, 2]` both cumulative series are NaN at bar
0 — `Returns[0]` is NaN, `(1 + Returns).cumprod()` keeps NaN positions NaN
— so neither equals 1 there, contradicting the claim. -/
theorem C4_counterexample :
    (backtest 20 50 [1, 2] 0).Cumulative_Returns.get? 0 = some none ∧
    (backtest 20 50 [1, 2] 0).Cumulative_Strategy.get? 0 = some none ∧
    some (none : Option ℚ) ≠ some (some (1 : ℚ)) := by
  refine ⟨?_, ?_, by simp⟩
  · norm_num [backtest, pctChange, cumprodSkip, cumprodSkipGo]
  · norm_num [backtest, strategyReturns, transactionCosts, positionList,
      signalList, rollingMean, signalOf, oltB, pctChange, diff1,
      adjMap, shift1, omul, osub, cumprodSkip, cumprodSkipGo, List.range_succ]

/-- C4 amended: for every nonempty price series, both cumulative series
are undefined (NaN) at bar 0, because the first market return is
undefined; the cumulative products are nevertheless seeded at 1: the
defined entries of each cumulative column are exactly the running products
of `(1 + return)` over the defined returns, starting from 1. -/
theorem C4_cumulative_seeding (w1 w2 : ℕ) (ps : List ℚ) (c : ℚ) (hne : ps ≠ []) :
    (backtest w1 w2 ps c).Cumulative_Returns.get? 0 = some none ∧
    (backtest w1 w2 ps c).Cumulative_Strategy.get? 0 = some none ∧
    (backtest w1 w2 ps c).Cumulative_Returns.filterMap id =
      cumprodListGo 1
        (((backtest w1 w2 ps c).Returns.map (Option.map fun r => 1 + r)).filterMap id) ∧
    (backtest w1 w2 ps c).Cumulative_Strategy.filterMap id =
      cumprodListGo 1
        (((backtest w1 w2 ps c).Strategy_Returns.map (Option.map fun r => 1 + r)).filterMap id) := by
  obtain ⟨p, t, rfl⟩ : ∃ p t, ps = p :: t := by
    cases ps with
    | nil => exact absurd rfl hne
    | cons p t => exact ⟨p, t, rfl⟩
  refine ⟨?_, ?_, ?_, ?_⟩
  · rw [backtest_CR]
    apply cumprodSkip_get?_zero_none
    simp [pctChange]
  · rw [backtest_CS]
    apply cumprodSkip_get?_zero_none
    have h0 : (strategyReturns (positionList (signalList w1 w2 (p :: t)))
        (pctChange (p :: t)) c).get? 0 = some none :=
      strategyReturns_get?_zero 0 _ _ c (position_get?_zero w1 w2 (p :: t) (by simp)) rfl
    simp only [List.get?_eq_getElem?, List.getElem?_map] at h0 ⊢
    rw [h0]
    rfl
  · rw [backtest_CR, backtest_Returns, cumprodSkip]
    exact cumprodSkipGo_filterMap 1 _
  · rw [backtest_CS, backtest_SR, cumprodSkip]
    exact cumprodSkipGo_filterMap 1 _

/-! ### Max-drawdown lemmas -/

theorem drawdowns_eq : ∀ (acc : Option ℚ) (xs : List (Option ℚ)),
    List.zipWith ddOf xs (cummaxGo acc xs) = drawdownsGo acc xs
  | _, [] => rfl
  | acc, none :: t => by
      simp [cummaxGo, drawdownsGo, ddOf, drawdowns_eq acc t]
  | none, some x :: t => by
      simp [cummaxGo, drawdownsGo, ddOf, drawdowns_eq (some x) t]
  | some a, some x :: t => by
      simp [cummaxGo, drawdownsGo, ddOf, drawdowns_eq (some (max a x)) t]

theorem foldl_min_le : ∀ (ys : List ℚ) (y z : ℚ), z ∈ y :: ys → ys.foldl min y ≤ z
  | [], y, z, hz => by
      simp only [List.mem_singleton] at hz
      simp [hz]
  | w :: ws, y, z, hz => by
      rw [List.foldl_cons]
      rcases List.mem_cons.mp hz with rfl | hz'
      · exact le_trans
          (foldl_min_le ws (min z w) (min z w) (List.mem_cons_self _ _)) (min_le_left _ _)
      rcases List.mem_cons.mp hz' with rfl | hz''
      · exact le_trans
          (foldl_min_le ws (min y z) (min y z) (List.mem_cons_self _ _)) (min_le_right _ _)
      · exact foldl_min_le ws (min y w) z (List.mem_cons_of_mem _ hz'')

theorem foldl_min_mem : ∀ (ys : List ℚ) (y : ℚ), ys.foldl min y ∈ y :: ys
  | [], y => List.mem_singleton.mpr rfl
  | w :: ws, y => by
      rw [List.foldl_cons]
      rcases List.mem_cons.mp (foldl_min_mem ws (min y w)) with he | hm
      · rw [he]
        rcases min_choice y w with h | h <;> rw [h]
        · exact List.mem_cons_self _ _
        · exact List.mem_cons_of_mem _ (List.mem_cons_self _ _)
      · exact List.mem_cons_of_mem _ (List.mem_cons_of_mem _ hm)

/-- A defined skip-NA minimum is a member of, and a lower bound of, the
defined entries. -/
theorem minSkip_eq_some_iff (xs : List (Option ℚ)) (v : ℚ) (h : minSkip xs = some v) :
    v ∈ xs.filterMap id ∧ ∀ z ∈ xs.filterMap id, v ≤ z := by
  unfold minSkip at h
  cases hf : xs.filterMap id with
  | nil => rw [hf] at h; exact absurd h (by simp)
  | cons y ys =>
      rw [hf] at h
      have hv : v = ys.foldl min y := (Option.some.inj h).symm
      subst hv
      exact ⟨foldl_min_mem ys y, fun z hz => foldl_min_le ys y z hz⟩

/-- A nonempty all-zero defined part has skip-NA minimum 0. -/
theorem minSkip_of_zeros (xs : List (Option ℚ)) (hne : xs.filterMap id ≠ [])
    (hall : ∀ z ∈ xs.filterMap id, z = 0) : minSkip xs = some 0 := by
  unfold minSkip
  cases hf : xs.filterMap id with
  | nil => exact absurd hf hne
  | cons y ys =>
      have hm := foldl_min_mem ys y
      rw [← hf] at hm
      exact congrArg some (hall _ hm)

/-- Under the invariant that the running maximum is absent or zero, the
first defined drawdown ratio produced is 0; hence 0 is among the defined
ratios whenever any exist. -/
theorem drawdownsGo_zero_mem : ∀ (xs : List (Option ℚ)) (acc : Option ℚ),
    (acc = none ∨ acc = some 0) → (drawdownsGo acc xs).filterMap id ≠ [] →
    (0 : ℚ) ∈ (drawdownsGo acc xs).filterMap id
  | [], _, _, hne => absurd rfl hne
  | none :: t, acc, hacc, hne => by
      simp only [drawdownsGo, List.filterMap_cons] at hne ⊢
      exact drawdownsGo_zero_mem t acc hacc hne
  | some x :: t, acc, hacc, hne => by
      rcases hacc with rfl | rfl
      · by_cases hx : x = 0
        · subst hx
          simp only [drawdownsGo, if_pos rfl, List.filterMap_cons] at hne ⊢
          exact drawdownsGo_zero_mem t (some 0) (Or.inr rfl) hne
        · simp only [drawdownsGo, if_neg hx, List.filterMap_cons, div_self hx]
          simp
      · by_cases hx : 0 < x
        · have hmx : max (0 : ℚ) x = x := max_eq_right (le_of_lt hx)
          simp only [drawdownsGo, hmx, if_neg (ne_of_gt hx), List.filterMap_cons,
            div_self (ne_of_gt hx)]
          simp
        · have hmx : max (0 : ℚ) x = 0 := max_eq_left (le_of_not_lt hx)
          simp only [drawdownsGo, hmx, if_pos rfl, List.filterMap_cons] at hne ⊢
          exact drawdownsGo_zero_mem t (some 0) (Or.inr rfl) hne

/-- Every defined max-drawdown value is nonpositive. -/
theorem maxDrawdown_le_zero (cs : List (Option ℚ)) (v : ℚ)
    (h : maxDrawdown cs = some v) : v ≤ 0 := by
  rw [maxDrawdown, drawdowns_eq] at h
  obtain ⟨hmem, hbound⟩ := minSkip_eq_some_iff _ v h
  have hne : (drawdownsGo none cs).filterMap id ≠ [] := by
    intro he
    rw [he] at hmem
    exact absurd hmem (by simp)
  exact hbound 0 (drawdownsGo_zero_mem cs none (Or.inl rfl) hne)

/-- Under a monotone (non-decreasing) defined part and a running maximum
that is absent or a lower bound of what remains, every defined drawdown
ratio is 0. -/
theorem drawdownsGo_mono_zeros : ∀ (xs : List (Option ℚ)) (acc : Option ℚ),
    (acc = none ∨ ∃ a, acc = some a ∧ ∀ x ∈ xs.filterMap id, a ≤ x) →
    (xs.filterMap id).Pairwise (· ≤ ·) →
    ∀ z ∈ (drawdownsGo acc xs).filterMap id, z = 0
  | [], _, _, _, _, hz => by simp [drawdownsGo] at hz
  | none :: t, acc, hacc, hpw, z, hz => by
      simp only [List.filterMap_cons] at hacc hpw hz
      exact drawdownsGo_mono_zeros t acc hacc hpw z
        (by simpa [drawdownsGo, List.filterMap_cons] using hz)
  | some x :: t, acc, hacc, hpw, z, hz => by
      simp only [List.filterMap_cons, id] at hacc hpw
      have hxt : ∀ y ∈ t.filterMap id, x ≤ y := (List.pairwise_cons.mp hpw).1
      have hpw' : (t.filterMap id).Pairwise (· ≤ ·) := (List.pairwise_cons.mp hpw).2
      have hm : (match acc with | none => x | some a => max a x) = x := by
        rcases hacc with rfl | ⟨a, rfl, ha⟩
        · rfl
        · exact max_eq_right (ha x (List.mem_cons_self _ _))
      have hinv : (some x = none ∨ ∃ a, some x = some a ∧ ∀ y ∈ t.filterMap id, a ≤ y) :=
        Or.inr ⟨x, rfl, hxt⟩
      rcases hacc with rfl | ⟨a, rfl, ha⟩
      · by_cases hx : x = 0
        · subst hx
          simp only [drawdownsGo, if_pos rfl, List.filterMap_cons] at hz
          exact drawdownsGo_mono_zeros t (some 0) hinv hpw' z hz
        · simp only [drawdownsGo, if_neg hx, List.filterMap_cons, div_self hx] at hz
          simp only [id] at hz
          rcases List.mem_cons.mp hz with rfl | hz'
          · norm_num
          · exact drawdownsGo_mono_zeros t (some x) hinv hpw' z hz'
      · have hmax : max a x = x := max_eq_right (ha x (List.mem_cons_self _ _))
        by_cases hx : x = 0
        · subst hx
          simp only [drawdownsGo, hmax, if_pos rfl, List.filterMap_cons] at hz
          exact drawdownsGo_mono_zeros t (some 0) hinv hpw' z hz
        · simp only [drawdownsGo, hmax, if_neg hx, List.filterMap_cons,
            div_self hx] at hz
          simp only [id] at hz
          rcases List.mem_cons.mp hz with rfl | hz'
          · norm_num
          · exact drawdownsGo_mono_zeros t (some x) hinv hpw' z hz'

/-- Under the same invariant and a monotone defined part, a nonzero
defined entry guarantees at least one defined drawdown ratio. -/
theorem drawdownsGo_defined_of_nonzero : ∀ (xs : List (Option ℚ)) (acc : Option ℚ),
    (acc = none ∨ ∃ a, acc = some a ∧ ∀ x ∈ xs.filterMap id, a ≤ x) →
    (xs.filterMap id).Pairwise (· ≤ ·) →
    (∃ x ∈ xs.filterMap id, x ≠ 0) →
    (drawdownsGo acc xs).filterMap id ≠ []
  | [], _, _, _, hnz => by simp at hnz
  | none :: t, acc, hacc, hpw, hnz => by
      simp only [List.filterMap_cons] at hacc hpw hnz
      simpa [drawdownsGo, List.filterMap_cons] using
        drawdownsGo_defined_of_nonzero t acc hacc hpw hnz
  | some x :: t, acc, hacc, hpw, hnz => by
      simp only [List.filterMap_cons, id] at hacc hpw hnz
      have hxt : ∀ y ∈ t.filterMap id, x ≤ y := (List.pairwise_cons.mp hpw).1
      have hpw' : (t.filterMap id).Pairwise (· ≤ ·) := (List.pairwise_cons.mp hpw).2
      by_cases hx : x = 0
      · subst hx
        have hnz' : ∃ y ∈ t.filterMap id, y ≠ 0 := by
          rcases hnz with ⟨y, hy, hyne⟩
          rcases List.mem_cons.mp hy with rfl | hy'
          · exact absurd rfl hyne
          · exact ⟨y, hy', hyne⟩
        have hinv : (some (0 : ℚ) = none ∨
            ∃ a, some (0 : ℚ) = some a ∧ ∀ y ∈ t.filterMap id, a ≤ y) :=
          Or.inr ⟨0, rfl, hxt⟩
        have hm : (match acc with | none => (0 : ℚ) | some a => max a 0) = 0 := by
          rcases hacc with rfl | ⟨a, rfl, ha⟩
          · rfl
          · exact max_eq_right (ha 0 (List.mem_cons_self _ _))
        have := drawdownsGo_defined_of_nonzero t (some 0) hinv hpw' hnz'
        rcases hacc with rfl | ⟨a, rfl, ha⟩
        · simpa [drawdownsGo, List.filterMap_cons] using this
        · have hmax : max a (0 : ℚ) = 0 := max_eq_right (ha 0 (List.mem_cons_self _ _))
          simpa [drawdownsGo, hmax, List.filterMap_cons] using this
      · rcases hacc with rfl | ⟨a, rfl, ha⟩
        · simp [drawdownsGo, if_neg hx, List.filterMap_cons]
        · have hmax : max a x = x := max_eq_right (ha x (List.mem_cons_self _ _))
          simp [drawdownsGo, hmax, if_neg hx, List.filterMap_cons]

theorem cumprodSkip_get?_one (xs : List (Option ℚ)) (y : ℚ)
    (h0 : xs.get? 0 = some none) (h1 : xs.get? 1 = some (some y)) :
    (cumprodSkip xs).get? 1 = some (some y) := by
  cases xs with
  | nil => simp at h0
  | cons a t =>
      have ha : a = none := by simpa using h0
      subst ha
      cases t with
      | nil => simp at h1
      | cons b t' =>
          have hb : b = some y := by simpa using h1
          subst hb
          simp [cumprodSkip, cumprodSkipGo]

/-- For a series of at least two positive prices, the cumulative strategy
value at bar 1 is exactly 1: the signal at bar 0 is 0, so the lagged
position at bars 0 and 1 is 0 and the bar-1 strategy return is 0. -/
theorem backtest_CS_get?_one (w1 w2 : ℕ) (ps : List ℚ) (c : ℚ)
    (hw1 : 1 ≤ w1) (hw2 : 1 ≤ w2) (hp : ∀ p ∈ ps, 0 < p) (hlen : 2 ≤ ps.length) :
    (backtest w1 w2 ps c).Cumulative_Strategy.get? 1 = some (some 1) := by
  cases ps with
  | nil => simp at hlen
  | cons p0 rest =>
      cases rest with
      | nil => simp at hlen
      | cons p1 t =>
          have hsig0 : (signalList w1 w2 (p0 :: p1 :: t)).get? 0 = some 0 :=
            signalList_get?_zero w1 w2 hw1 hw2 p0 (p1 :: t)
          have hsiglen : 1 < (signalList w1 w2 (p0 :: p1 :: t)).length := by
            rw [signalList_length]; simp
          have hpos1 : (positionList (signalList w1 w2 (p0 :: p1 :: t))).get? 1 =
              some (((0 : ℤ) : ℚ)) :=
            positionList_get?_succ _ 0 0 hsig0 hsiglen
          have hpos1' : (positionList (signalList w1 w2 (p0 :: p1 :: t))).get? 1 =
              some (0 : ℚ) := by simpa using hpos1
          have hpos0 : (positionList (signalList w1 w2 (p0 :: p1 :: t))).get? 0 =
              some (0 : ℚ) := position_get?_zero w1 w2 _ (by simp)
          have hne : p0 ≠ 0 := ne_of_gt (hp p0 (by simp))
          have hret1 : (pctChange (p0 :: p1 :: t)).get? 1 = some (some (p1 / p0 - 1)) :=
            pctChange_get?_succ (p0 :: p1 :: t) 0 p0 p1 rfl rfl hne
          have hsr1 := strategyReturns_get?_succ
            (positionList (signalList w1 w2 (p0 :: p1 :: t)))
            (pctChange (p0 :: p1 :: t)) c 0 0 0 (p1 / p0 - 1) hpos0 hpos1' hret1
          have hsr1' : (strategyReturns (positionList (signalList w1 w2 (p0 :: p1 :: t)))
              (pctChange (p0 :: p1 :: t)) c).get? 1 = some (some 0) := by
            simpa using hsr1
          have hsr0 : (strategyReturns (positionList (signalList w1 w2 (p0 :: p1 :: t)))
              (pctChange (p0 :: p1 :: t)) c).get? 0 = some none :=
            strategyReturns_get?_zero 0 _ _ c hpos0 rfl
          rw [backtest_CS]
          apply cumprodSkip_get?_one
          · simp only [List.get?_eq_getElem?, List.getElem?_map]
            simp only [List.get?_eq_getElem?] at hsr0
            rw [hsr0]
            rfl
          · simp only [List.get?_eq_getElem?, List.getElem?_map]
            simp only [List.get?_eq_getElem?] at hsr1'
            rw [hsr1']
            norm_num

/-! ### C8: max drawdown is nonpositive, and 0 on monotone series -/

/-- C8: every defined max-drawdown value (the skip-NA minimum of
`cs / cs.cummax() - 1`, as computed at line 87 and lines 120-121) is ≤ 0;
and for every backtest over at least two positive prices whose cumulative
strategy series is monotonically non-decreasing (on its defined entries),
the max drawdown is exactly 0. -/
theorem C8_max_drawdown :
    (∀ (cs : List (Option ℚ)) (v : ℚ), maxDrawdown cs = some v → v ≤ 0) ∧
    (∀ (w1 w2 : ℕ) (ps : List ℚ) (c : ℚ), 1 ≤ w1 → 1 ≤ w2 → (∀ p ∈ ps, 0 < p) →
      2 ≤ ps.length →
      ((backtest w1 w2 ps c).Cumulative_Strategy.filterMap id).Pairwise (· ≤ ·) →
      maxDrawdown (backtest w1 w2 ps c).Cumulative_Strategy = some 0) := by
  constructor
  · exact maxDrawdown_le_zero
  · intro w1 w2 ps c hw1 hw2 hp hlen hpw
    have h1 : (backtest w1 w2 ps c).Cumulative_Strategy.get? 1 = some (some 1) :=
      backtest_CS_get?_one w1 w2 ps c hw1 hw2 hp hlen
    have hmem : (1 : ℚ) ∈ (backtest w1 w2 ps c).Cumulative_Strategy.filterMap id :=
      List.mem_filterMap.mpr ⟨some 1, List.get?_mem h1, rfl⟩
    have hnz : ∃ x ∈ (backtest w1 w2 ps c).Cumulative_Strategy.filterMap id, x ≠ 0 :=
      ⟨1, hmem, one_ne_zero⟩
    rw [maxDrawdown, drawdowns_eq]
    exact minSkip_of_zeros _
      (drawdownsGo_defined_of_nonzero _ none (Or.inl rfl) hpw hnz)
      (drawdownsGo_mono_zeros _ none (Or.inl rfl) hpw)

/-- Witness for C8: the drawdown of `[some 1, some 1]` is a defined
nonpositive value, and the monotone backtest over `[1, 2]` has max
drawdown exactly 0. -/
theorem C8_max_drawdown_witness :
    (0 : ℚ) ≤ 0 ∧
    maxDrawdown (backtest 1 2 [1, 2] 0).Cumulative_Strategy = some 0 := by
  constructor
  · exact C8_max_drawdown.1 [some 1, some 1] 0
      (by norm_num [maxDrawdown, minSkip, cummaxGo, ddOf, List.filterMap_cons])
  · apply C8_max_drawdown.2 1 2 [1, 2] 0 (by norm_num) (by norm_num)
      (by norm_num) (by norm_num)
    have hcs : (backtest 1 2 [1, 2] 0).Cumulative_Strategy.filterMap id = [1] := by
      norm_num [backtest, strategyReturns, transactionCosts, positionList,
        signalList, rollingMean, signalOf, oltB, pctChange, diff1,
        adjMap, shift1, omul, osub, cumprodSkip, cumprodSkipGo, List.range_succ,
        List.filterMap_cons]
    rw [hcs]
    simp

/-- Witness for C4's amended statement on the series `[1, 2]`. -/
theorem C4_cumulative_seeding_witness :
    (backtest 20 50 [1, 2] 0).Cumulative_Returns.get? 0 = some none ∧
    (backtest 20 50 [1, 2] 0).Cumulative_Strategy.get? 0 = some none ∧
    (backtest 20 50 [1, 2] 0).Cumulative_Returns.filterMap id =
      cumprodListGo 1
        (((backtest 20 50 [1, 2] 0).Returns.map (Option.map fun r => 1 + r)).filterMap id) ∧
    (backtest 20 50 [1, 2] 0).Cumulative_Strategy.filterMap id =
      cumprodListGo 1
        (((backtest 20 50 [1, 2] 0).Strategy_Returns.map (Option.map fun r => 1 + r)).filterMap id) :=
  C4_cumulative_seeding 20 50 [1, 2] 0 (by simp)

/-! ### C6: zero volatility and zero drawdown never divide by zero -/

/-- C6: whenever the computed volatility is exactly 0, the Sharpe ratio of
`calculate_metrics` is exactly 0 (not NaN or infinite); whenever the
computed max drawdown is exactly 0, the Calmar ratio of
`calculate_additional_metrics` is exactly 0 — the division is guarded in
both places. -/
theorem C6_zero_guards :
    (∀ (df : BacktestDf) (m : Metrics), calculate_metrics df = some m →
      m.volatility = some 0 → m.sharpe = some 0) ∧
    (∀ (rs : List (Option ℚ)) (a : AddMetrics), calculate_additional_metrics rs = some a →
      addMaxDrawdown rs = some 0 → a.calmar = some 0) := by
  constructor
  · intro df m hm hv
    rw [calculate_metrics] at hm
    cases hlast : df.Cumulative_Strategy.getLast? with
    | none => rw [hlast] at hm; exact absurd hm (by simp)
    | some vT =>
        rw [hlast] at hm
        simp only [] at hm
        obtain rfl : _ = m := Option.some.inj hm
        simp only [] at hv ⊢
        rw [hv]
        simp
  · intro rs a ha hd
    rw [calculate_additional_metrics] at ha
    cases hf : rs.filterMap id with
    | nil => rw [hf] at ha; exact absurd ha (by simp)
    | cons r rest =>
        rw [hf] at ha
        simp only [] at ha
        obtain rfl : _ = a := Option.some.inj ha
        simp only []
        rw [if_pos hd]

/-- Witness for C6: the constant price series `[1, 1, 1]` has volatility
exactly 0 and Sharpe exactly 0, and the all-flat return series has max
drawdown 0 and Calmar 0. -/
theorem C6_zero_guards_witness :
    (∃ m : Metrics, calculate_metrics (backtest 1 2 [1, 1, 1] 0) = some m ∧
      m.volatility = some 0 ∧ m.sharpe = some 0) ∧
    (∃ a : AddMetrics, calculate_additional_metrics [none, some 0, some 0] = some a ∧
      addMaxDrawdown [none, some 0, some 0] = some 0 ∧ a.calmar = some 0) := by
  have hsr : (backtest 1 2 [1, 1, 1] 0).Strategy_Returns = [none, some 0, some 0] := by
    norm_num [backtest, strategyReturns, transactionCosts, positionList,
      signalList, rollingMean, signalOf, oltB, pctChange, diff1,
      adjMap, shift1, omul, osub, List.range_succ]
  have hcs : (backtest 1 2 [1, 1, 1] 0).Cumulative_Strategy = [none, some 1, some 1] := by
    norm_num [backtest, strategyReturns, transactionCosts, positionList,
      signalList, rollingMean, signalOf, oltB, pctChange, diff1,
      adjMap, shift1, omul, osub, cumprodSkip, cumprodSkipGo, List.range_succ]
  have hvar : ovar [none, some 0, some 0] = some 0 := by
    norm_num [ovar, List.filterMap_cons]
  have hm : calculate_metrics (backtest 1 2 [1, 1, 1] 0) =
      some ⟨some 0, some 0, some 0, some 0, some 0⟩ := by
    rw [calculate_metrics, hcs]
    simp only [List.getLast?]
    rw [hsr, hvar]
    norm_num [maxDrawdown, minSkip, cummaxGo, ddOf, List.filterMap_cons,
      Real.sqrt_zero, Real.one_rpow]
  have hdd : addMaxDrawdown [none, some 0, some 0] = some 0 := by
    norm_num [addMaxDrawdown, cumprodList, cumprodListGo, maxDrawdown, minSkip,
      cummaxGo, ddOf, List.filterMap_cons]
  have ha : calculate_additional_metrics [none, some 0, some 0] =
      some ⟨0, 0, 0, some 0⟩ := by
    rw [calculate_additional_metrics]
    norm_num [List.filterMap_cons, hdd]
  exact ⟨⟨_, hm, rfl, C6_zero_guards.1 _ _ hm rfl⟩,
         ⟨_, ha, hdd, C6_zero_guards.2 _ _ ha hdd⟩⟩

/-! ### C7: short series (claim fails on the empty series) -/

/-- C7 counterexample: on the empty price series, `calculate_metrics`
raises (`iloc[-1]` is an `IndexError`, modelled as `none`; `252/len(df)`
would likewise be a `ZeroDivisionError`), where the claim demands fallback
metrics with no exception. -/
theorem C7_counterexample :
    calculate_metrics (backtest 20 50 ([] : List ℚ) (1 / 1000)) = none := rfl

/-- C7 amended: on every single-bar series the backtest and both metric
functions stay defined and return the documented fallbacks (all statistics
undefined except a Sharpe of 0; the additional-metrics dictionary is
empty), but the empty series makes `calculate_metrics` raise. -/
theorem C7_length_one_fallback (p c : ℚ) (w1 w2 : ℕ) (hw1 : 1 ≤ w1) (hw2 : 1 ≤ w2) :
    calculate_metrics (backtest w1 w2 [p] c) = some ⟨none, none, none, some 0, none⟩ ∧
    calculate_additional_metrics (backtest w1 w2 [p] c).Strategy_Returns = none := by
  have hsl : signalList w1 w2 [p] = [0] := by
    have hlen := signalList_length w1 w2 [p]
    have h0 := signalList_get?_zero w1 w2 hw1 hw2 p []
    cases hs : signalList w1 w2 [p] with
    | nil => rw [hs] at hlen; simp at hlen
    | cons s t =>
        rw [hs] at hlen h0
        have hs0 : s = 0 := by simpa using h0
        have ht : t = [] := by
          have h' : t.length + 1 = 1 := by simpa using hlen
          exact List.length_eq_zero.mp (by omega)
        rw [hs0, ht]
  have hsr : (backtest w1 w2 [p] c).Strategy_Returns = [none] := by
    rw [backtest_SR, hsl]
    rfl
  have hcs : (backtest w1 w2 [p] c).Cumulative_Strategy = [none] := by
    rw [backtest_CS, hsl]
    rfl
  constructor
  · rw [calculate_metrics, hcs]
    simp only [List.getLast?]
    rw [hsr]
    norm_num [ovar, maxDrawdown, minSkip, cummaxGo, ddOf, List.filterMap_cons]
  · rw [hsr]
    rfl

/-- Witness for C7's amended statement at price 5, cost 1/1000, windows
20/50. -/
theorem C7_length_one_fallback_witness :
    calculate_metrics (backtest 20 50 [5] (1 / 1000)) =
      some ⟨none, none, none, some 0, none⟩ ∧
    calculate_additional_metrics (backtest 20 50 [5] (1 / 1000)).Strategy_Returns = none :=
  C7_length_one_fallback 5 (1 / 1000) 20 50 (by norm_num) (by norm_num)

/-! ### C10: helper lemmas on lengths and terminal values -/

theorem backtest_SR_length (w1 w2 : ℕ) (ps : List ℚ) (c : ℚ) :
    (backtest w1 w2 ps c).Strategy_Returns.length = ps.length := by
  rw [backtest_SR]
  simp [strategyReturns, transactionCosts, List.length_zipWith, diff1_length,
    positionList_length, signalList_length, pctChange_length]

theorem backtest_CS_length (w1 w2 : ℕ) (ps : List ℚ) (c : ℚ) :
    (backtest w1 w2 ps c).Cumulative_Strategy.length = ps.length := by
  rw [backtest_CS, cumprodSkip, cumprodSkipGo_length, List.length_map]
  have := backtest_SR_length w1 w2 ps c
  rw [backtest_SR] at this
  exact this

theorem backtest_SR_get?_zero (w1 w2 : ℕ) (ps : List ℚ) (c : ℚ) (hne : ps ≠ []) :
    (backtest w1 w2 ps c).Strategy_Returns.get? 0 = some none := by
  obtain ⟨p, t, rfl⟩ : ∃ p t, ps = p :: t := by
    cases ps with
    | nil => exact absurd rfl hne
    | cons p t => exact ⟨p, t, rfl⟩
  rw [backtest_SR]
  exact strategyReturns_get?_zero 0 _ _ c (position_get?_zero w1 w2 _ (by simp)) rfl

theorem filterMap_id_length_all_some {α : Type} :
    ∀ t : List (Option α), (∀ y ∈ t, ∃ v, y = some v) →
      (t.filterMap id).length = t.length
  | [], _ => rfl
  | y :: t, h => by
      obtain ⟨v, rfl⟩ := h y (List.mem_cons_self _ _)
      simp only [List.filterMap_cons, id, List.length_cons]
      rw [filterMap_id_length_all_some t fun z hz => h z (List.mem_cons_of_mem _ hz)]

theorem filterMap_id_map_optionMap {α β : Type} (f : α → β) :
    ∀ xs : List (Option α),
      ((xs.map (Option.map f)).filterMap id) = (xs.filterMap id).map f
  | [] => rfl
  | none :: t => by
      simpa [List.filterMap_cons] using filterMap_id_map_optionMap f t
  | some x :: t => by
      simpa [List.filterMap_cons] using filterMap_id_map_optionMap f t

theorem getLast?_filterMap_of_last_some {α : Type} :
    ∀ (xs : List (Option α)) (v : α), xs.getLast? = some (some v) →
      (xs.filterMap id).getLast? = some v
  | [], v, h => by simp at h
  | [a], v, h => by
      have ha : a = some v := by simpa using h
      subst ha
      rfl
  | a :: b :: t, v, h => by
      have h' : (b :: t).getLast? = some (some v) := by
        simpa [List.getLast?_cons_cons] using h
      have ih := getLast?_filterMap_of_last_some (b :: t) v h'
      have hne : (b :: t).filterMap id ≠ [] := by
        intro he
        rw [he] at ih
        simp at ih
      cases a with
      | none => simpa [List.filterMap_cons] using ih
      | some w =>
          have hred : List.filterMap id (some w :: b :: t) =
              w :: List.filterMap id (b :: t) := by simp
          rw [hred]
          cases hfb : (b :: t).filterMap id with
          | nil => exact absurd hfb hne
          | cons c1 cs =>
              rw [List.getLast?_cons_cons]
              rw [hfb] at ih
              exact ih

/-- The strategy-return column of a backtest over `n ≥ 1` positive prices
has exactly `n - 1` defined entries: the first is NaN, all others are
numbers. -/
theorem backtest_SR_filterMap_length (w1 w2 : ℕ) (ps : List ℚ) (c : ℚ)
    (hp : ∀ p ∈ ps, 0 < p) (hne : ps ≠ []) :
    ((backtest w1 w2 ps c).Strategy_Returns.filterMap id).length = ps.length - 1 := by
  have hlen : (backtest w1 w2 ps c).Strategy_Returns.length = ps.length :=
    backtest_SR_length w1 w2 ps c
  have h0 : (backtest w1 w2 ps c).Strategy_Returns.get? 0 = some none :=
    backtest_SR_get?_zero w1 w2 ps c hne
  cases hxs : (backtest w1 w2 ps c).Strategy_Returns with
  | nil =>
      rw [hxs] at h0
      simp at h0
  | cons x0 t =>
      rw [hxs] at h0 hlen
      have hx0 : x0 = none := by simpa using h0
      subst hx0
      have hred : List.filterMap id (none :: t) = List.filterMap id t := by simp
      rw [hred]
      have hall : ∀ y ∈ t, ∃ v, y = some v := by
        intro y hy
        obtain ⟨i, hi⟩ := List.mem_iff_get?.mp hy
        have hit : i < t.length := by
          by_contra hge
          rw [List.get?_eq_none.mpr (le_of_not_lt hge)] at hi
          exact absurd hi (by simp)
        have hi1 : i + 1 < ps.length := by
          rw [← hlen]
          simpa using Nat.succ_lt_succ hit
        obtain ⟨q, p', r, _, _, _, hsr⟩ := backtest_SR_succ w1 w2 ps c i hp hi1
        rw [hxs] at hsr
        have : t.get? i = some (some (q * r - |q - p'| * c)) := by
          simpa using hsr
        rw [hi] at this
        exact ⟨_, (Option.some.inj this)⟩
      rw [filterMap_id_length_all_some t hall]
      simp only [List.length_cons] at hlen
      omega


/-- Terminal cumulative strategy value: defined for `n ≥ 2` positive
prices, and equal to the terminal value of the plain cumulative product of
the NaN-dropped strategy returns (the quantity `calculate_additional_metrics`
uses). -/
theorem backtest_CS_terminal (w1 w2 : ℕ) (ps : List ℚ) (c : ℚ)
    (hp : ∀ p ∈ ps, 0 < p) (hlen : 2 ≤ ps.length) :
    ∃ vT : ℚ,
      (backtest w1 w2 ps c).Cumulative_Strategy.getLast? = some (some vT) ∧
      (cumprodList (((backtest w1 w2 ps c).Strategy_Returns.filterMap id).map
        fun r => 1 + r)).getLast? = some vT := by
  have hslen : (backtest w1 w2 ps c).Strategy_Returns.length = ps.length :=
    backtest_SR_length w1 w2 ps c
  have hclen : (backtest w1 w2 ps c).Cumulative_Strategy.length = ps.length :=
    backtest_CS_length w1 w2 ps c
  -- the last strategy return is a defined number
  obtain ⟨q, p', r, _, _, _, hsr⟩ :=
    backtest_SR_succ w1 w2 ps c (ps.length - 2) hp (by omega)
  have hidx : ps.length - 2 + 1 = ps.length - 1 := by omega
  rw [hidx] at hsr
  -- hence the last cumulative strategy entry is defined
  have hmap : ((backtest w1 w2 ps c).Strategy_Returns.map
      (Option.map fun r => 1 + r)).get? (ps.length - 1) =
      some (some (1 + (q * r - |q - p'| * c))) := by
    simp only [List.get?_eq_getElem?, List.getElem?_map]
    simp only [List.get?_eq_getElem?] at hsr
    rw [hsr]
    rfl
  have hiso := cumprodSkipGo_isSome 1
    ((backtest w1 w2 ps c).Strategy_Returns.map (Option.map fun r => 1 + r))
    (ps.length - 1)
  rw [hmap] at hiso
  have hcs' : (backtest w1 w2 ps c).Cumulative_Strategy =
      cumprodSkipGo 1 ((backtest w1 w2 ps c).Strategy_Returns.map
        (Option.map fun r => 1 + r)) := by
    rw [backtest_CS, cumprodSkip, backtest_SR]
  rw [← hcs'] at hiso
  obtain ⟨u, hu⟩ : ∃ u : ℚ,
      (backtest w1 w2 ps c).Cumulative_Strategy.get? (ps.length - 1) = some (some u) := by
    cases hoc : (backtest w1 w2 ps c).Cumulative_Strategy.get? (ps.length - 1) with
    | none => rw [hoc] at hiso; exact absurd hiso (by simp)
    | some o =>
        rw [hoc] at hiso
        have : o.isSome = true := by simpa using hiso
        obtain ⟨u, hu⟩ := Option.isSome_iff_exists.mp this
        exact ⟨u, by rw [hu]⟩
  have hlast : (backtest w1 w2 ps c).Cumulative_Strategy.getLast? = some (some u) := by
    rw [List.getLast?_eq_getElem?, hclen, ← List.get?_eq_getElem?]
    exact hu
  have hfm : (backtest w1 w2 ps c).Cumulative_Strategy.filterMap id =
      cumprodList (((backtest w1 w2 ps c).Strategy_Returns.filterMap id).map
        fun r => 1 + r) := by
    rw [backtest_CS, cumprodSkip, cumprodSkipGo_filterMap, cumprodList, backtest_SR,
      filterMap_id_map_optionMap]
  refine ⟨u, hlast, ?_⟩
  rw [← hfm]
  exact getLast?_filterMap_of_last_some _ u hlast

/-! ### C10: the two CAGR computations use different `n` (claim fails) -/

/-- C10 counterexample: on `[1, 2, 4]` with windows 1/2 and zero cost, the
strategy-return series has length 3 and terminal cumulative value 2, yet
the CAGR computed inside `calculate_additional_metrics` is
`2^(252/2) - 1` — based on the NaN-dropped length 2 — which differs from
`V_T^(252/n) - 1` with `n = 3` the length of the strategy-return series
(the `n` that `calculate_metrics` uses).  The same `n` is NOT used
consistently wherever CAGR is computed. -/
theorem C10_counterexample :
    (backtest 1 2 [1, 2, 4] 0).Strategy_Returns.length = 3 ∧
    (calculate_metrics (backtest 1 2 [1, 2, 4] 0)).map Metrics.annual_return =
      some (some ((2 : ℝ) ^ ((252 : ℝ) / 3) - 1)) ∧
    addAnnualReturn (backtest 1 2 [1, 2, 4] 0).Strategy_Returns =
      some ((2 : ℝ) ^ ((252 : ℝ) / 2) - 1) ∧
    ((2 : ℝ) ^ ((252 : ℝ) / 2) - 1) ≠ ((2 : ℝ) ^ ((252 : ℝ) / 3) - 1) := by
  have hsr3 : (backtest 1 2 [1, 2, 4] 0).Strategy_Returns = [none, some 0, some 1] := by
    norm_num [backtest, strategyReturns, transactionCosts, positionList,
      signalList, rollingMean, signalOf, oltB, pctChange, diff1,
      adjMap, shift1, omul, osub, List.range_succ]
  have hcs3 : (backtest 1 2 [1, 2, 4] 0).Cumulative_Strategy =
      [none, some 1, some 2] := by
    norm_num [backtest, strategyReturns, transactionCosts, positionList,
      signalList, rollingMean, signalOf, oltB, pctChange, diff1,
      adjMap, shift1, omul, osub, cumprodSkip, cumprodSkipGo, List.range_succ]
  have hlt : (2 : ℝ) ^ ((252 : ℝ) / 3) < (2 : ℝ) ^ ((252 : ℝ) / 2) :=
    (Real.rpow_lt_rpow_left_iff (by norm_num)).mpr (by norm_num)
  refine ⟨by rw [hsr3]; rfl, ?_, ?_, ?_⟩
  · rw [calculate_metrics, hcs3]
    simp only [List.getLast?]
    norm_num
  · rw [addAnnualReturn, hsr3]
    norm_num [cumprodList, cumprodListGo, List.filterMap_cons]
  · exact ne_of_gt (by linarith)

/-- C10 amended: both CAGR computations have the form `V_T^(252/n) - 1`
with the same terminal value `V_T`, but with different `n`:
`calculate_metrics` uses the full frame length (the strategy-return series
length, undefined first bar included), while `calculate_additional_metrics`
uses the count of defined returns after `dropna()`, which is exactly one
less for every backtest over positive prices. -/
theorem C10_cagr_lengths (w1 w2 : ℕ) (ps : List ℚ) (c : ℚ)
    (hp : ∀ p ∈ ps, 0 < p) (hlen : 2 ≤ ps.length) :
    ∃ vT : ℚ,
      (backtest w1 w2 ps c).Cumulative_Strategy.getLast? = some (some vT) ∧
      (cumprodList (((backtest w1 w2 ps c).Strategy_Returns.filterMap id).map
        fun r => 1 + r)).getLast? = some vT ∧
      (calculate_metrics (backtest w1 w2 ps c)).map Metrics.annual_return =
        some (some ((vT : ℝ) ^ ((252 : ℝ) / (ps.length : ℝ)) - 1)) ∧
      addAnnualReturn (backtest w1 w2 ps c).Strategy_Returns =
        some ((vT : ℝ) ^ ((252 : ℝ) / ((ps.length - 1 : ℕ) : ℝ)) - 1) ∧
      ((backtest w1 w2 ps c).Strategy_Returns.filterMap id).length = ps.length - 1 := by
  have hne : ps ≠ [] := by
    intro h
    rw [h] at hlen
    simp at hlen
  obtain ⟨vT, hlast, hplain⟩ := backtest_CS_terminal w1 w2 ps c hp hlen
  have hfl := backtest_SR_filterMap_length w1 w2 ps c hp hne
  refine ⟨vT, hlast, hplain, ?_, ?_, hfl⟩
  · rw [calculate_metrics, hlast]
    rw [backtest_CS_length]
    simp
  · rw [addAnnualReturn, hplain, hfl]
    rfl

/-- Witness for C10's amended statement at `[1, 2, 4]`, windows 1/2, zero
cost. -/
theorem C10_cagr_lengths_witness :
    ∃ vT : ℚ,
      (backtest 1 2 [1, 2, 4] 0).Cumulative_Strategy.getLast? = some (some vT) ∧
      (cumprodList (((backtest 1 2 [1, 2, 4] 0).Strategy_Returns.filterMap id).map
        fun r => 1 + r)).getLast? = some vT ∧
      (calculate_metrics (backtest 1 2 [1, 2, 4] 0)).map Metrics.annual_return =
        some (some ((vT : ℝ) ^ ((252 : ℝ) / (([1, 2, 4] : List ℚ).length : ℝ)) - 1)) ∧
      addAnnualReturn (backtest 1 2 [1, 2, 4] 0).Strategy_Returns =
        some ((vT : ℝ) ^ ((252 : ℝ) / ((([1, 2, 4] : List ℚ).length - 1 : ℕ) : ℝ)) - 1) ∧
      ((backtest 1 2 [1, 2, 4] 0).Strategy_Returns.filterMap id).length =
        ([1, 2, 4] : List ℚ).length - 1 :=
  C10_cagr_lengths 1 2 [1, 2, 4] 0 (by norm_num) (by norm_num)

end QRW
